import Mathlib

/-!
Shallow embedding of the dendron note-tree builder (`FileParser` in
`src/packages/plugin-core/src/commands/ExportPod.ts`) and of the
`DNode`/`Note` data model (`src/unnamed/part_000`).

JavaScript objects linked by mutable `parent`/`children` references are
modelled by a heap: a `List NoteData` indexed by position, with mutation as
functional update.  Thrown JS exceptions are modelled by `Except JsError`.
External collaborators that are code of this repository but absent from
`src/` are modelled from the spec and marked as such in their doc comments.
-/

/-- JS `x || dflt` for an optional string: `undefined`, `null` and the empty
string are all falsy and give the default. -/
def strOr (o : Option String) (dflt : String) : String :=
  match o with
  | some s => if s = "" then dflt else s
  | none => dflt

/-- `Array.prototype.join(".")`: dot-join a list of strings. -/
def dotJoin : List String → String
  | [] => ""
  | [s] => s
  | s :: t :: rest => s ++ "." ++ dotJoin (t :: rest)

/-- Split a character list at a separator character. -/
def splitCharAux (sep : Char) : List Char → List Char → List (List Char)
  | [], acc => [acc.reverse]
  | c :: cs, acc =>
    if c = sep then acc.reverse :: splitCharAux sep cs []
    else splitCharAux sep cs (c :: acc)

/-- JS `s.split(".")` / the dot-segment decomposition of a filename stem. -/
def splitOnDot (s : String) : List String :=
  (splitCharAux '.' s.data []).map (fun l => String.mk l)

/-- Split a path string on `/`. -/
def splitOnSlash (s : String) : List String :=
  (splitCharAux '/' s.data []).map (fun l => String.mk l)

/-- The basename of a path (the part after the last `/`). -/
def basenameOf (s : String) : String :=
  (splitOnSlash s).getLastD s

/-- Node's `path.parse(fpath).name`: the basename with its last extension
removed (`"a.b.md"` gives `"a.b"`, `"root.md"` gives `"root"`). -/
def stemOf (s : String) : String :=
  let b := basenameOf s
  let segs := splitOnDot b
  if segs.length ≤ 1 then b else dotJoin segs.dropLast

/-- The last dot-segment of a stem. -/
def lastSegOf (s : String) : String :=
  (splitOnDot s).getLastD s

/-- Modelled from the spec: `DNodeUtils.dirName` (code not under `src/`)
removes the last dot-segment from a stem (`"a.b.c"` gives `"a.b"`,
`"a"` gives `""`). -/
def dirName (s : String) : String :=
  dotJoin (splitOnDot s).dropLast

/-- Whether the first character list starts with the second one. -/
def charsLead : List Char → List Char → Bool
  | [], _ => true
  | _ :: _, [] => false
  | a :: as, b :: bs => a = b && charsLead as bs

/-- Modelled from the spec: the external glob predicate, specialised to the
one call site `globMatch(["root.*"], fpath)`; true when the path starts
with `"root."`. -/
def globMatchRootStar (fpath : String) : Bool :=
  charsLead "root.".data fpath.data

/-- JS `Set.prototype.add`: append if not already present (insertion order
is preserved, duplicates are dropped). -/
def setAdd (l : List String) (s : String) : List String :=
  if l.contains s then l else l ++ [s]

/-- JS object property assignment `d[k] = v`: overwrite in place if the key
exists, append otherwise (JS objects keep first-insertion key order). -/
def dictSet (d : List (String × α)) (k : String) (v : α) : List (String × α) :=
  if d.any (fun kv => kv.1 == k) then
    d.map (fun kv => if kv.1 == k then (k, v) else kv)
  else d ++ [(k, v)]

/-- JS object property read `d[k]`. -/
def dictGet (d : List (String × α)) (k : String) : Option α :=
  (d.find? (fun kv => kv.1 == k)).map (fun kv => kv.2)

/-! ## The DNode / Note data model (`src/unnamed/part_000`) -/

/-- One materialized node.  Mirrors the fields assigned by the `DNode`
constructor; `parent` and `children` are heap references (indices into the
node list) in place of JS object references.  `fname` is modelled from the
spec: the filename-derived identity the tree builder indexes nodes by
(`nodesStoreByFname`), absent from the copy of the model under `src/`. -/
structure NoteData where
  id : String
  title : String
  desc : String
  type : String
  updated : String
  created : String
  parent : Option Nat
  children : List Nat
  body : String
  parentId : Option String
  childrenIds : List String
  schemaId : String
  fname : String
deriving DecidableEq, Repr

/-- The options record accepted by the `DNode`/`Note` constructors.  A JS
caller may omit any field except `title` and `type`; omitted fields are the
`none` cases and receive the constructor's `_.defaults` values. -/
structure IDNodeOpts where
  id : Option String := none
  title : String
  desc : Option String := none
  type : String
  updated : Option String := none
  created : Option String := none
  parent : Option Nat := none
  children : Option (List Nat) := none
  body : Option String := none
  parentId : Option String := none
  childrenIds : Option (List String) := none
  schemaId : Option String := none
  fname : Option String := none
deriving DecidableEq, Repr

/-- The `DNode` constructor: `_.defaults` fills `updated`/`created`/`id`
with `"TODO"`, `desc`/`body` with `""`, `children`/`childrenIds` with `[]`
and `parentId`/`parent` with `null`, then every field is assigned. -/
def DNode.make (opts : IDNodeOpts) : NoteData :=
  { id := opts.id.getD "TODO"
    title := opts.title
    desc := opts.desc.getD ""
    type := opts.type
    updated := opts.updated.getD "TODO"
    created := opts.created.getD "TODO"
    parent := opts.parent
    children := opts.children.getD []
    body := opts.body.getD ""
    parentId := opts.parentId
    childrenIds := opts.childrenIds.getD []
    schemaId := "-1"
    fname := opts.fname.getD "" }

/-- The `Note` constructor: `super({...props, parent: null, children: []})`
followed by `this.schemaId = props.schemaId || "-1"`. -/
def Note.make (opts : IDNodeOpts) : NoteData :=
  let d := DNode.make { opts with parent := none, children := some [] }
  { d with schemaId := strOr opts.schemaId "-1" }

/-- Functional update of the node at index `r` of a heap. -/
def heapModify (h : List NoteData) (r : Nat) (f : NoteData → NoteData) : List NoteData :=
  match h, r with
  | [], _ => []
  | n :: t, 0 => f n :: t
  | n :: t, Nat.succ r => n :: heapModify t r f

/-- `DNode.addChild(node)`: `this.children.push(node); node.parent = this;`
as a heap operation (`self` plays `this`, `child` plays `node`). -/
def addChild (h : List NoteData) (self child : Nat) : List NoteData :=
  heapModify (heapModify h self (fun n => { n with children := n.children ++ [child] }))
    child (fun n => { n with parent := some self })

/-- The recursive `path` getter: `parent.path + "." + title` when the node
has a parent whose title is not the sentinel `"root"`, the node's own title
otherwise.  `fuel` bounds the recursion (the JS getter would overflow the
stack on a parent cycle); a dangling reference or exhausted fuel yields a
junk value that real builds never produce. -/
def pathAux (h : List NoteData) : Nat → Nat → String
  | 0, _ => ""
  | Nat.succ fuel, r =>
    match h.get? r with
    | none => ""
    | some n =>
      match n.parent with
      | none => n.title
      | some p =>
        match h.get? p with
        | none => n.title
        | some pn =>
          if pn.title = "root" then n.title
          else pathAux h fuel p ++ "." ++ n.title

/-- The `path` of a node in a heap, with enough fuel for any acyclic heap. -/
def notePath (h : List NoteData) (r : Nat) : String :=
  pathAux h h.length r

/-- The titles on the parent chain from the synthetic root (exclusive) down
to `r`: the spec-side description of what `path` dot-joins.  `none` when
the fuel runs out before the chain terminates. -/
def titleChain (h : List NoteData) : Nat → Nat → Option (List String)
  | 0, _ => none
  | Nat.succ fuel, r =>
    match h.get? r with
    | none => none
    | some n =>
      match n.parent with
      | none => some [n.title]
      | some p =>
        match h.get? p with
        | none => some [n.title]
        | some pn =>
          if pn.title = "root" then some [n.title]
          else (titleChain h fuel p).map (fun l => l ++ [n.title])

/-- The plain record produced by `toRawProps`: exactly the scalar and
identifier fields picked there, with the `parent`/`children` references
excluded. -/
structure DNodeRawProps where
  id : String
  title : String
  desc : String
  type : String
  updated : String
  created : String
  body : String
  parentId : Option String
  childrenIds : List String
deriving DecidableEq, Repr

/-- `DNode.toRawProps`: `_.pick` of the nine scalar/identifier fields. -/
def DNode.toRawProps (n : NoteData) : DNodeRawProps :=
  { id := n.id
    title := n.title
    desc := n.desc
    type := n.type
    updated := n.updated
    created := n.created
    body := n.body
    parentId := n.parentId
    childrenIds := n.childrenIds }

/-- Reconstructing a node from a flattened record: `new Note(rawProps)`. -/
def noteOfRawProps (r : DNodeRawProps) : NoteData :=
  Note.make
    { id := some r.id
      title := r.title
      desc := some r.desc
      type := r.type
      updated := some r.updated
      created := some r.created
      body := some r.body
      parentId := r.parentId
      childrenIds := some r.childrenIds }

/-- The tree-shape invariant of the spec: whenever a node's `parent`
reference points at `p`, the children list of `p` contains that node
exactly once. -/
def parentChildInv (h : List NoteData) : Prop :=
  ∀ c p cn pn, h.get? c = some cn → cn.parent = some p → h.get? p = some pn →
    pn.children.count c = 1

/-! ## FileMeta indexing (`getFileMeta` in `ExportPod.ts`) -/

/-- One entry of the depth-grouped file index; `stem` models the source
field `prefix` (the filename without extension), `fpath` the relative
path. -/
structure FileMeta where
  stem : String
  fpath : String
deriving DecidableEq, Repr

/-- The `FileMeta` for one raw path. -/
def toFileMeta (fpath : String) : FileMeta :=
  { stem := stemOf fpath, fpath := fpath }

/-- The hierarchy level of a stem: its number of dot-segments. -/
def levelOf (stem : String) : Nat :=
  (splitOnDot stem).length

/-- `getFileMeta` restricted to one level: the input files whose stem has
`lvl` dot-segments, in input order (`metaDict[lvl]`, or `[]` for an absent
key). -/
def filesAtLevel (data : List String) (lvl : Nat) : List FileMeta :=
  (data.map toFileMeta).filter (fun m => levelOf m.stem == lvl)

/-- `_.max(_.keys(fileMetaDict).map(toInteger)) || 2`: the deepest level
present in the input, defaulting to 2 when there is none. -/
def maxLevel (data : List String) : Nat :=
  let mx := (data.map (fun f => levelOf (stemOf f))).foldl Nat.max 0
  if mx = 0 then 2 else mx

/-! ## The FileParser (`ExportPod.ts`) -/

/-- A diagnostic entry pushed onto `this.errors`. -/
inductive ErrorEntry where
  | badParse : FileMeta → String → ErrorEntry
  | noParentPath : FileMeta → String → ErrorEntry
deriving DecidableEq, Repr

/-- The `status` string of a diagnostic entry. -/
def ErrorEntry.status : ErrorEntry → String
  | .badParse _ _ => "BAD_PARSE"
  | .noParentPath _ _ => "NO_PARENT_PATH"

/-- A thrown JS exception: a rethrown collaborator error, a `new Error`
built from a diagnostic entry, or a TypeError from dereferencing
`undefined`/`null`. -/
inductive JsError where
  | thrown : String → JsError
  | errorObj : ErrorEntry → JsError
  | typeError : String → JsError
deriving DecidableEq, Repr

/-- The parser flags (`FileParserProps`); the constructor defaults both to
`true`. -/
structure FPOpts where
  errorOnEmpty : Bool := true
  errorOnBadParse : Bool := true
deriving DecidableEq, Repr

/-- The per-call options of `toNode`, with their `_.defaults` values. -/
structure ToNodeOpts where
  errorOnEmpty : Bool := true
  isRoot : Bool := false
  errorOnBadParse : Bool := true
deriving DecidableEq, Repr

/-- The mutable state of one `FileParser` run: the node heap, the
`errors` accumulator, the `missing` set (as an insertion-ordered list) and
the `nodesStoreByFname` dictionary (values may be `null`). -/
structure FPState where
  heap : List NoteData
  errors : List ErrorEntry
  missing : List String
  dict : List (String × Option Nat)
deriving DecidableEq, Repr

/-- The state of a fresh `FileParser`. -/
def initFPState : FPState :=
  { heap := [], errors := [], missing := [], dict := [] }

/-- The external collaborator `mdFile2NodeProps`: reads a file and returns
the raw note properties, or throws.  The embedding abstracts over it. -/
def Mdf : Type := String → Except String IDNodeOpts

/-- Modelled from the spec: the behaviour of `mdFile2NodeProps` on a
well-formed file (code not under `src/`) — the title is the last path
segment of the stem and the stem is the filename-derived identity. -/
def defaultMaterializer : Mdf := fun fpath =>
  let stem := stemOf fpath
  .ok { id := some stem, title := lastSegOf stem, type := "note", fname := some stem }

/-- The `fname` of the node at a heap reference. -/
def fnameOf (h : List NoteData) (r : Nat) : String :=
  match h.get? r with
  | some n => n.fname
  | none => ""

/-- Modelled from the spec: `DNode.logicalPath` (code not under `src/`),
the filename-derived dot path of a node. -/
def logicalPath (h : List NoteData) (r : Nat) : String :=
  fnameOf h r

/-- `FileParser.toNode`.  Returns the updated state, the created node (or
`null` after a tolerated bad parse) and the missing parent path (or
`null`), or the thrown exception. -/
def FileParser.toNode (m : Mdf) (st : FPState) (ent : FileMeta) (parents : List Nat)
    (opts : ToNodeOpts) : Except JsError (FPState × Option Nat × Option String) :=
  match m ent.fpath with
  | .error err =>
    if opts.errorOnBadParse then .error (.thrown err)
    else .ok ({ st with errors := st.errors ++ [.badParse ent err] }, none, none)
  | .ok noteProps =>
    let parentPath := dirName ent.stem
    let parentRef := parents.find? (fun p => notePath st.heap p == parentPath)
    match
      (if parentRef.isNone && !opts.isRoot then
        let st1 := { st with errors := st.errors ++ [.noParentPath ent parentPath] }
        if opts.errorOnEmpty then
          Except.error (JsError.errorObj (.noParentPath ent parentPath))
        else Except.ok (st1, some parentPath)
      else Except.ok (st, none)) with
    | .error e => .error e
    | .ok (st1, missing) =>
      let noteData := Note.make { noteProps with parent := parentRef, children := some [] }
      let ref := st1.heap.length
      let heap1 := st1.heap ++ [noteData]
      let heap2 :=
        match parentRef with
        | some p => addChild heap1 p ref
        | none => heap1
      .ok ({ st1 with heap := heap2 }, some ref, missing)

/-- Modelled from the spec: one trimming step of
`DNodeUtils.findClosestParent` (code not under `src/`): drop the trailing
segment, look the shortened path up in the by-fname store, recurse while
nothing is found, and fall back to the `"root"` entry. -/
def findClosestParentAux (dict : List (String × Option Nat)) :
    Nat → List String → Option Nat
  | 0, _ => (dictGet dict "root").bind id
  | Nat.succ fuel, segs =>
    let ps := segs.dropLast
    if ps.isEmpty then (dictGet dict "root").bind id
    else
      match dictGet dict (dotJoin ps) with
      | some (some r) => some r
      | _ => findClosestParentAux dict fuel ps

/-- Modelled from the spec: `DNodeUtils.findClosestParent` — iteratively
trim trailing segments off the orphan's logical path and return the first
node already indexed under the shortened path, falling back to the root. -/
def findClosestParent (lp : String) (dict : List (String × Option Nat)) : Option Nat :=
  findClosestParentAux dict (splitOnDot lp).length (splitOnDot lp)

/-- One stub-creation step: append a placeholder note for the given
stem and attach it under the current chain end. -/
def stubStep (toSegs : List String) (acc : List NoteData × Nat × List Nat) (len : Nat) :
    List NoteData × Nat × List Nat :=
  let fnm := dotJoin (toSegs.take len)
  let stubData := Note.make { title := lastSegOf fnm, type := "note", fname := some fnm }
  let ref := acc.1.length
  let h1 := acc.1 ++ [stubData]
  let h2 := addChild h1 acc.2.1 ref
  (h2, ref, acc.2.2 ++ [ref])

/-- Modelled from the spec: `NoteUtils.createStubNotes` (code not under
`src/`) — synthesize one placeholder note per absent intermediate segment
between the closest existing ancestor and the orphan, thread `addChild`
through the chain, attach the orphan to its end, and return the newly
created stubs. -/
def createStubNotes (h : List NoteData) (fromRef : Option Nat) (toRef : Nat) :
    List NoteData × List Nat :=
  match fromRef with
  | none => (h, [])
  | some fr =>
    match h.get? fr, h.get? toRef with
    | some fn, some tn =>
      let toSegs := splitOnDot tn.fname
      let startLen := if fn.fname = "root" then 1 else (splitOnDot fn.fname).length + 1
      let lens := List.range' startLen (toSegs.length - startLen)
      let r := lens.foldl (stubStep toSegs) (h, fr, ([] : List Nat))
      (addChild r.1 r.2.1 toRef, r.2.2)
    | _, _ => (h, [])

/-- The body of the level-`lvl` map in `parse` for one file: skip reserved
`root.*` companions, materialize via `toNode`, and repair a missing
ancestor by stub synthesis, indexing the new stubs and recording the
missing path. -/
def FileParser.processEnt (m : Mdf) (popts : FPOpts) (prev : List Nat)
    (st : FPState) (ent : FileMeta) : Except JsError (FPState × Option Nat) :=
  if globMatchRootStar ent.fpath then .ok (st, none)
  else
    match FileParser.toNode m st ent prev
      { errorOnEmpty := popts.errorOnEmpty, errorOnBadParse := popts.errorOnBadParse } with
    | .error e => .error e
    | .ok (st1, nodeOpt, missing) =>
      match missing with
      | none => .ok (st1, nodeOpt)
      | some mp =>
        match nodeOpt with
        | none => .error (.typeError "logicalPath of null")
        | some nref =>
          let closest := findClosestParent (logicalPath st1.heap nref) st1.dict
          let r := createStubNotes st1.heap closest nref
          let st2 := { st1 with heap := r.1 }
          let st3 := r.2.foldl
            (fun s sref => { s with dict := dictSet s.dict (fnameOf s.heap sref) (some sref) }) st2
          .ok ({ st3 with missing := setAdd st3.missing mp }, nodeOpt)

/-- The level-`lvl` map of `parse`: process every file of the level in
order, collecting the `toNode` results (`null` for skipped files). -/
def FileParser.processLevel (m : Mdf) (popts : FPOpts) (st : FPState) (prev : List Nat)
    (ents : List FileMeta) : Except JsError (FPState × List (Option Nat)) :=
  List.foldlM
    (fun acc ent => do
      let r ← FileParser.processEnt m popts prev acc.1 ent
      pure (r.1, acc.2 ++ [r.2]))
    (st, ([] : List (Option Nat))) ents

/-- The end of one loop iteration in `parse`: drop the `null`s
(`.filter(Boolean)`), index the surviving nodes by fname, and hand them to
the next level as its candidate parent set (`prevNodes = currNodes`). -/
def FileParser.afterLevel (st : FPState) (acc : List (Option Nat)) : FPState × List Nat :=
  let curr := acc.filterMap id
  (curr.foldl (fun s n => { s with dict := dictSet s.dict (fnameOf s.heap n) (some n) }) st,
    curr)

/-- `FileParser.parse`.  Returns the final run state together with
`_.values(nodesStoreByFname)` (JS values may be `null`), or the thrown
exception. -/
def FileParser.parse (m : Mdf) (popts : FPOpts) (data : List String) :
    Except JsError (FPState × List (Option Nat)) :=
  if data.isEmpty then .ok (initFPState, [])
  else
    let lvl1 := filesAtLevel data 1
    if lvl1.isEmpty then .error (.typeError "find of undefined")
    else
      match lvl1.find? (fun n => n.fpath == "root.md") with
      | none => .ok (initFPState, [])
      | some rootMeta => do
        let r0 ← FileParser.toNode m initFPState rootMeta []
          { isRoot := true, errorOnBadParse := popts.errorOnBadParse }
        let rootOpt := r0.2.1
        let st := { r0.1 with dict := dictSet r0.1.dict "root" rootOpt }
        let others := lvl1.filter (fun n => !(n.fpath == "root.md"))
        let rl ← List.foldlM
          (fun acc ent => do
            -- the flags are not forwarded here: toNode runs with its defaults
            let r ← FileParser.toNode m acc.1 ent [] { isRoot := true }
            pure (r.1, acc.2 ++ [r.2.1]))
          (st, ([] : List (Option Nat))) others
        let st2 ← List.foldlM
          (fun s (n : Option Nat) =>
            match rootOpt with
            | none => Except.error (JsError.typeError "addChild of null")
            | some rr =>
              match n with
              | none => Except.error (JsError.typeError "set parent of null")
              | some c => Except.ok { s with heap := addChild s.heap rr c,
                                             dict := dictSet s.dict (fnameOf s.heap c) (some c) })
          rl.1 rl.2
        let fin ← List.foldlM
          (fun acc lvl => do
            let r ← FileParser.processLevel m popts acc.1 acc.2 (filesAtLevel data lvl)
            pure (FileParser.afterLevel r.1 r.2))
          (st2, rl.2.filterMap id) (List.range' 2 (maxLevel data - 1))
        pure (fin.1, fin.1.dict.map (fun kv => kv.2))

/-- The `(errors, missing)` part of `report()` after a successful parse. -/
def parseReport (m : Mdf) (popts : FPOpts) (data : List String) :
    Option (List ErrorEntry × List String) :=
  match FileParser.parse m popts data with
  | .ok r => some (r.1.errors, r.1.missing)
  | .error _ => none

/-- The keys of `nodesStoreByFname` after a successful parse, in insertion
order. -/
def parseDictKeys (m : Mdf) (popts : FPOpts) (data : List String) :
    Option (List String) :=
  match FileParser.parse m popts data with
  | .ok r => some (r.1.dict.map (fun kv => kv.1))
  | .error _ => none

/-- The computed `path` of the node stored under a given fname key after a
successful parse. -/
def parsePathOfKey (m : Mdf) (popts : FPOpts) (data : List String) (k : String) :
    Option String :=
  match FileParser.parse m popts data with
  | .ok r =>
    match dictGet r.1.dict k with
    | some (some nref) => some (notePath r.1.heap nref)
    | _ => none
  | .error _ => none

/-- The exception thrown by a parse, if any. -/
def parseError (m : Mdf) (popts : FPOpts) (data : List String) : Option JsError :=
  match FileParser.parse m popts data with
  | .ok _ => none
  | .error e => some e

/-! ## The schema file resolver (`FileParserUtils` in `ExportPod.ts`) -/

/-- One raw schema entry as it appears in a parsed YAML file (the parts of
`SchemaRawOpts` this subsystem touches). -/
structure SchemaRawOpts where
  id : String
  pattern : Option String := none
  children : Option (List String) := none
deriving DecidableEq, Repr

/-- A normalized schema record (`SchemaRawProps`): the version-independent
shape `{id, fname, data: {pattern, ...}, parent, children}`. -/
structure SchemaRawProps where
  id : String
  fname : String
  pattern : Option String
  parent : Option String
  children : List String
deriving DecidableEq, Repr

/-- Modelled from the spec: `Schema.createRawProps` (code not under
`src/`) normalizes one raw entry into the version-independent record shape
with `parent: null` and a defaulted children list, attributing it to the
given `fname`. -/
def Schema.createRawProps (fname : String) (o : SchemaRawOpts) : SchemaRawProps :=
  { id := o.id, fname := fname, pattern := o.pattern, parent := none,
    children := o.children.getD [] }

/-- Modelled from the spec: `SchemaUtils.fname` (code not under `src/`)
derives the domain from a schema record's `fname` by stripping the trailing
`.schema` segment (`"shared.schema"` gives `"shared"`). -/
def SchemaUtils.fname (s : String) : String :=
  let segs := splitOnDot s
  if segs.getLastD "" = "schema" then dotJoin segs.dropLast else s

/-- The parsed YAML value of a schema file, by shape: a bare array of
entries, or an object whose `imports` and `schemas` keys may each be
present or absent. -/
inductive YamlValue where
  | arr : List SchemaRawOpts → YamlValue
  | obj : Option (List String) → Option (List SchemaRawOpts) → YamlValue
deriving DecidableEq, Repr

/-- The file store backing `fs.readFileSync` composed with the trusted
external YAML parser: full path to parsed value, `none` for a missing
file. -/
def SchemaFS : Type := String → Option YamlValue

/-- The namespacing rewrite applied to every record pulled in via a
version-1 import: default `data.pattern` to the pre-namespaced id, prefix
the id and every child id with the domain of the imported file, reattribute
the record to the importer's `fname`, and null the parent. -/
def importRewrite (fname : String) (ent : SchemaRawProps) : SchemaRawProps :=
  let domain := SchemaUtils.fname ent.fname
  { id := domain ++ "." ++ ent.id
    fname := fname
    pattern := some (strOr ent.pattern ent.id)
    parent := none
    children := ent.children.map (fun c => domain ++ "." ++ c) }

/-- `FileParserUtils.parseSchemaFile`, with explicit recursion fuel (the
source recurses unboundedly through imports; import cycles are unguarded).
Version detection is by shape: an array is version 0, anything else is
treated as version 1 and destructured into `imports`/`schemas`. -/
def FileParserUtils.parseSchemaFileAux (fs : SchemaFS) :
    Nat → String → String → Except JsError (List SchemaRawProps)
  | 0, _, _ => .error (.thrown "maximum call stack size exceeded")
  | Nat.succ fuel, fpath, root =>
    let fname := stemOf fpath
    match fs (root ++ "/" ++ fpath) with
    | none => .error (.thrown "ENOENT")
    | some (.arr entries) => .ok (entries.map (Schema.createRawProps fname))
    | some (.obj imports schemas) => do
      let fromImport ← List.foldlM
        (fun acc ent => do
          let rs ← FileParserUtils.parseSchemaFileAux fs fuel (ent ++ ".schema.yml") root
          pure (acc ++ rs))
        ([] : List SchemaRawProps) (imports.getD [])
      let rewritten := fromImport.map (importRewrite fname)
      match schemas with
      | none => .error (.typeError "map of undefined")
      | some ss => .ok (rewritten ++ ss.map (Schema.createRawProps fname))

/-- `FileParserUtils.parseSchemaVersion1`: resolve every import with
`parseSchemaFile`, rewrite the imported records, and concatenate them with
the file's own normalized `schemas` entries. -/
def FileParserUtils.parseSchemaVersion1 (fs : SchemaFS) (fuel : Nat)
    (imports : Option (List String)) (schemas : Option (List SchemaRawOpts))
    (fname root : String) : Except JsError (List SchemaRawProps) := do
  let fromImport ← List.foldlM
    (fun acc ent => do
      let rs ← FileParserUtils.parseSchemaFileAux fs fuel (ent ++ ".schema.yml") root
      pure (acc ++ rs))
    ([] : List SchemaRawProps) (imports.getD [])
  let rewritten := fromImport.map (importRewrite fname)
  match schemas with
  | none => .error (.typeError "map of undefined")
  | some ss => .ok (rewritten ++ ss.map (Schema.createRawProps fname))

/-! ## Concrete demonstration objects -/

/-- A demo root note (title and fname `"root"`). -/
def demoRootNote : NoteData :=
  Note.make { title := "root", type := "note", fname := some "root" }

/-- A demo domain note (title and fname `"a"`), still detached. -/
def demoANote : NoteData :=
  Note.make { title := "a", type := "note", fname := some "a" }

/-- A two-node demo heap: the root and the detached note `"a"`. -/
def demoHeap : List NoteData := [demoRootNote, demoANote]

/-- A heap in which `"a"` is attached under the root and `"a.b"` under
`"a"`, built with `addChild` only. -/
def chainHeap : List NoteData :=
  addChild (addChild [demoRootNote, demoANote,
    Note.make { title := "b", type := "note", fname := some "a.b" }] 0 1) 1 2

/-- A demo builder state holding `demoHeap`. -/
def demoSt : FPState := { heap := demoHeap, errors := [], missing := [], dict := [] }

/-- The file meta of `"a.b.md"`. -/
def entAB : FileMeta := toFileMeta "a.b.md"

/-- The state produced by materializing `"a.b.md"` against `demoSt` with
candidate parent `1`. -/
def demoSt2 : FPState :=
  match FileParser.toNode defaultMaterializer demoSt entAB [1] {} with
  | .ok r => r.1
  | .error _ => initFPState

/-- The full result of `processEnt` on `"a.b.md"` against `demoSt`. -/
def demoPEfull : FPState × Option Nat :=
  match FileParser.processEnt defaultMaterializer {} [1] demoSt entAB with
  | .ok r => r
  | .error _ => (initFPState, none)

/-- A materializer failing on the level-1 file `"a.md"` only. -/
def mFailA : Mdf := fun fp =>
  if fp == "a.md" then .error "boom" else defaultMaterializer fp

/-- A materializer failing on the level-2 file `"a.b.md"` only. -/
def mFailAB : Mdf := fun fp =>
  if fp == "a.b.md" then .error "boom" else defaultMaterializer fp

/-- The raw properties `defaultMaterializer` returns for `"a.x.y.md"`. -/
def demoC4props : IDNodeOpts :=
  { id := some "a.x.y", title := "y", type := "note", fname := some "a.x.y" }

/-- A demo schema file store: `shared.schema.yml` is a version-0 array,
`domain.schema.yml` a version-1 object importing `shared`. -/
def demoFS : SchemaFS := fun p =>
  if p == "r/shared.schema.yml" then
    some (.arr [{ id := "x" }, { id := "y", pattern := some "pat", children := some ["x"] }])
  else if p == "r/domain.schema.yml" then
    some (.obj (some ["shared"]) (some [{ id := "own" }]))
  else none

/-! ## Infrastructure lemmas -/

theorem get?_append_length {α : Type} (l : List α) (a : α) :
    (l ++ [a]).get? l.length = some a := by
  induction l with
  | nil => rfl
  | cons n t ih => simp

theorem mapCongrMem {α β : Type} (l : List α) (f g : α → β)
    (h : ∀ a ∈ l, f a = g a) : l.map f = l.map g := by
  induction l with
  | nil => rfl
  | cons a t ih =>
    simp only [List.map_cons, h a (by simp)]
    rw [ih (fun x hx => h x (by simp [hx]))]

theorem heapModify_get?_eq (h : List NoteData) (r : Nat) (f : NoteData → NoteData) :
    (heapModify h r f).get? r = (h.get? r).map f := by
  induction h generalizing r with
  | nil => simp [heapModify]
  | cons n t ih =>
    cases r with
    | zero => simp [heapModify]
    | succ r => simpa [heapModify] using ih r

theorem heapModify_get?_ne (h : List NoteData) (r i : Nat) (f : NoteData → NoteData)
    (hne : i ≠ r) : (heapModify h r f).get? i = h.get? i := by
  induction h generalizing r i with
  | nil => simp [heapModify]
  | cons n t ih =>
    cases r with
    | zero =>
      cases i with
      | zero => exact absurd rfl hne
      | succ i => simp [heapModify]
    | succ r =>
      cases i with
      | zero => simp [heapModify]
      | succ i => simpa [heapModify] using ih r i (fun hh => hne (by rw [hh]))

theorem addChild_get?_parent (h : List NoteData) (p c : Nat) (hne : p ≠ c) :
    (addChild h p c).get? p =
      (h.get? p).map (fun n => { n with children := n.children ++ [c] }) := by
  unfold addChild
  rw [heapModify_get?_ne _ c p _ hne, heapModify_get?_eq]

theorem addChild_get?_child (h : List NoteData) (p c : Nat) (hne : c ≠ p) :
    (addChild h p c).get? c =
      (h.get? c).map (fun n => { n with parent := some p }) := by
  unfold addChild
  rw [heapModify_get?_eq, heapModify_get?_ne _ p c _ hne]

theorem addChild_get?_same (h : List NoteData) (p : Nat) :
    (addChild h p p).get? p =
      (h.get? p).map (fun n => { n with children := n.children ++ [p], parent := some p }) := by
  unfold addChild
  rw [heapModify_get?_eq, heapModify_get?_eq]
  cases h.get? p <;> simp

theorem addChild_get?_other (h : List NoteData) (p c i : Nat) (h1 : i ≠ p) (h2 : i ≠ c) :
    (addChild h p c).get? i = h.get? i := by
  unfold addChild
  rw [heapModify_get?_ne _ c i _ h2, heapModify_get?_ne _ p i _ h1]

theorem dotJoin_append_single (l : List String) (t : String) (hl : l ≠ []) :
    dotJoin (l ++ [t]) = dotJoin l ++ "." ++ t := by
  induction l with
  | nil => exact absurd rfl hl
  | cons s rest ih =>
    cases rest with
    | nil => simp [dotJoin]
    | cons s2 r2 =>
      have h2 := ih (by simp)
      simp only [List.cons_append] at h2 ⊢
      simp only [dotJoin] at h2 ⊢
      rw [h2]
      simp [String.append_assoc]

theorem titleChain_ne_nil (h : List NoteData) (fuel r : Nat) (L : List String)
    (hc : titleChain h fuel r = some L) : L ≠ [] := by
  cases fuel with
  | zero => simp [titleChain] at hc
  | succ fuel =>
    unfold titleChain at hc
    cases hget : h.get? r with
    | none => rw [hget] at hc; simp at hc
    | some n =>
      rw [hget] at hc
      dsimp only at hc
      cases hpar : n.parent with
      | none =>
        rw [hpar] at hc
        simp at hc
        subst hc
        simp
      | some p =>
        rw [hpar] at hc
        dsimp only at hc
        cases hp : h.get? p with
        | none =>
          rw [hp] at hc
          simp at hc
          subst hc
          simp
        | some pn =>
          rw [hp] at hc
          dsimp only at hc
          by_cases ht : pn.title = "root"
          · rw [if_pos ht] at hc
            simp at hc
            subst hc
            simp
          · rw [if_neg ht] at hc
            obtain ⟨L2, _, hL⟩ := Option.map_eq_some'.mp hc
            subst hL
            simp


theorem pathAux_eq_dotJoin (h : List NoteData) :
    ∀ fuel r L, titleChain h fuel r = some L → pathAux h fuel r = dotJoin L := by
  intro fuel
  induction fuel with
  | zero => intro r L hc; simp [titleChain] at hc
  | succ fuel ih =>
    intro r L hc
    unfold titleChain at hc
    unfold pathAux
    cases hget : h.get? r with
    | none => rw [hget] at hc; simp at hc
    | some n =>
      rw [hget] at hc
      dsimp only
      dsimp only at hc
      cases hpar : n.parent with
      | none =>
        rw [hpar] at hc
        simp at hc
        subst hc
        rfl
      | some p =>
        rw [hpar] at hc
        dsimp only
        dsimp only at hc
        cases hp : h.get? p with
        | none =>
          rw [hp] at hc
          simp at hc
          subst hc
          rfl
        | some pn =>
          rw [hp] at hc
          dsimp only
          dsimp only at hc
          by_cases ht : pn.title = "root"
          · rw [if_pos ht] at hc ⊢
            simp at hc
            subst hc
            rfl
          · rw [if_neg ht] at hc ⊢
            obtain ⟨L2, hL2, hL⟩ := Option.map_eq_some'.mp hc
            subst hL
            rw [ih p L2 hL2, dotJoin_append_single L2 n.title (titleChain_ne_nil h fuel p L2 hL2)]

theorem addChild_get?_all (h : List NoteData) (p c i : Nat) :
    (addChild h p c).get? i = (h.get? i).map (fun n =>
      if i = c then
        (if i = p then { n with children := n.children ++ [c], parent := some p }
         else { n with parent := some p })
      else (if i = p then { n with children := n.children ++ [c] } else n)) := by
  by_cases hic : i = c
  · by_cases hip : i = p
    · subst hic
      subst hip
      rw [addChild_get?_same]
      cases h.get? i <;> simp
    · subst hic
      rw [addChild_get?_child h p i (fun hh => hip hh)]
      cases h.get? i <;> simp [hip]
  · by_cases hip : i = p
    · subst hip
      rw [addChild_get?_parent h i c hic]
      cases h.get? i <;> simp [hic]
    · rw [addChild_get?_other h p c i hip hic]
      cases h.get? i <;> simp [hic, hip]

theorem addChild_preserves_inv (h : List NoteData) (p c : Nat) (pn : NoteData)
    (hp : h.get? p = some pn) (hnotin : c ∉ pn.children) (hinv : parentChildInv h) :
    parentChildInv (addChild h p c) := by
  intro x q xn qn hx hq hqn
  rw [addChild_get?_all] at hx hqn
  obtain ⟨xn0, hx0, hxn⟩ := Option.map_eq_some'.mp hx
  obtain ⟨qn0, hq0, hqn0⟩ := Option.map_eq_some'.mp hqn
  by_cases hxc : x = c
  · -- the freshly attached child: its new parent is p
    rw [if_pos hxc] at hxn
    have hqp : q = p := by
      by_cases hxp : x = p
      · rw [if_pos hxp] at hxn
        rw [← hxn] at hq
        simp at hq
        exact hq.symm
      · rw [if_neg hxp] at hxn
        rw [← hxn] at hq
        simp at hq
        exact hq.symm
    have hq0p : qn0 = pn := by
      rw [hqp, hp] at hq0
      exact (Option.some_inj.mp hq0).symm
    have hqch : qn.children = pn.children ++ [c] := by
      by_cases hqc : q = c
      · rw [if_pos hqc, if_pos hqp] at hqn0
        rw [← hqn0, hq0p]
      · rw [if_neg hqc, if_pos hqp] at hqn0
        rw [← hqn0, hq0p]
    rw [hqch, hxc]
    simp [List.count_append, List.count_cons, List.count_nil,
      List.count_eq_zero.mpr hnotin]
  · -- a pre-existing parent link: its count is untouched
    rw [if_neg hxc] at hxn
    have hold : xn0.parent = some q := by
      by_cases hxp : x = p
      · rw [if_pos hxp] at hxn
        rw [← hxn] at hq
        simpa using hq
      · rw [if_neg hxp] at hxn
        rw [← hxn] at hq
        exact hq
    have hbase : qn0.children.count x = 1 := hinv x q xn0 qn0 hx0 hold hq0
    by_cases hqp : q = p
    · have hqch : qn.children = qn0.children ++ [c] := by
        by_cases hqc : q = c
        · rw [if_pos hqc, if_pos hqp] at hqn0
          rw [← hqn0]
        · rw [if_neg hqc, if_pos hqp] at hqn0
          rw [← hqn0]
      rw [hqch]
      simp [List.count_append, List.count_cons, List.count_nil, hbase,
        fun hh => hxc hh]
    · have hqch : qn.children = qn0.children := by
        by_cases hqc : q = c
        · rw [if_pos hqc, if_neg hqp] at hqn0
          rw [← hqn0]
        · rw [if_neg hqc, if_neg hqp] at hqn0
          rw [← hqn0]
      rw [hqch]
      exact hbase

theorem toNode_badParse_strict (m : Mdf) (st : FPState) (ent : FileMeta)
    (parents : List Nat) (opts : ToNodeOpts) (e : String)
    (hm : m ent.fpath = .error e) (hflag : opts.errorOnBadParse = true) :
    FileParser.toNode m st ent parents opts = .error (.thrown e) := by
  unfold FileParser.toNode
  rw [hm, hflag]
  simp

theorem toNode_badParse_relaxed (m : Mdf) (st : FPState) (ent : FileMeta)
    (parents : List Nat) (opts : ToNodeOpts) (e : String)
    (hm : m ent.fpath = .error e) (hflag : opts.errorOnBadParse = false) :
    FileParser.toNode m st ent parents opts =
      .ok ({ st with errors := st.errors ++ [.badParse ent e] }, none, none) := by
  unfold FileParser.toNode
  rw [hm, hflag]
  simp

theorem toNode_noParent_strict (m : Mdf) (st : FPState) (ent : FileMeta)
    (parents : List Nat) (opts : ToNodeOpts) (props : IDNodeOpts)
    (hm : m ent.fpath = .ok props)
    (hfind : parents.find? (fun p => notePath st.heap p == dirName ent.stem) = none)
    (hroot : opts.isRoot = false) (hflag : opts.errorOnEmpty = true) :
    FileParser.toNode m st ent parents opts =
      .error (.errorObj (.noParentPath ent (dirName ent.stem))) := by
  unfold FileParser.toNode
  rw [hm]
  simp [hfind, hroot, hflag]

theorem toNode_noParent_relaxed (m : Mdf) (st : FPState) (ent : FileMeta)
    (parents : List Nat) (opts : ToNodeOpts) (props : IDNodeOpts)
    (hm : m ent.fpath = .ok props)
    (hfind : parents.find? (fun p => notePath st.heap p == dirName ent.stem) = none)
    (hroot : opts.isRoot = false) (hflag : opts.errorOnEmpty = false) :
    FileParser.toNode m st ent parents opts =
      .ok ({ st with errors := st.errors ++ [.noParentPath ent (dirName ent.stem)],
                     heap := st.heap ++ [Note.make { props with parent := none, children := some [] }] },
           some st.heap.length, some (dirName ent.stem)) := by
  unfold FileParser.toNode
  rw [hm]
  simp [hfind, hroot, hflag]

theorem toNode_found (m : Mdf) (st : FPState) (ent : FileMeta)
    (parents : List Nat) (opts : ToNodeOpts) (props : IDNodeOpts) (p : Nat)
    (hm : m ent.fpath = .ok props)
    (hfind : parents.find? (fun q => notePath st.heap q == dirName ent.stem) = some p) :
    FileParser.toNode m st ent parents opts =
      .ok ({ st with heap :=
               addChild (st.heap ++ [Note.make { props with parent := some p, children := some [] }]) p st.heap.length },
           some st.heap.length, none) := by
  unfold FileParser.toNode
  rw [hm]
  simp [hfind]

theorem toNode_isRoot (m : Mdf) (st : FPState) (ent : FileMeta)
    (parents : List Nat) (opts : ToNodeOpts) (props : IDNodeOpts)
    (hm : m ent.fpath = .ok props)
    (hfind : parents.find? (fun p => notePath st.heap p == dirName ent.stem) = none)
    (hroot : opts.isRoot = true) :
    FileParser.toNode m st ent parents opts =
      .ok ({ st with heap := st.heap ++ [Note.make { props with parent := none, children := some [] }] },
           some st.heap.length, none) := by
  unfold FileParser.toNode
  rw [hm]
  simp [hfind, hroot]

theorem toNode_parent_eq_find (m : Mdf) (st : FPState) (ent : FileMeta)
    (parents : List Nat) (opts : ToNodeOpts) (st2 : FPState) (nref : Nat)
    (miss : Option String)
    (hok : FileParser.toNode m st ent parents opts = .ok (st2, some nref, miss)) :
    (st2.heap.get? nref).map NoteData.parent =
      some (parents.find? (fun q => notePath st.heap q == dirName ent.stem)) := by
  cases hm : m ent.fpath with
  | error e =>
    cases hflag : opts.errorOnBadParse with
    | true =>
      rw [toNode_badParse_strict m st ent parents opts e hm hflag] at hok
      simp at hok
    | false =>
      rw [toNode_badParse_relaxed m st ent parents opts e hm hflag] at hok
      simp at hok
  | ok props =>
    cases hfind : parents.find? (fun q => notePath st.heap q == dirName ent.stem) with
    | some p =>
      rw [toNode_found m st ent parents opts props p hm hfind] at hok
      rw [Except.ok.injEq, Prod.mk.injEq, Prod.mk.injEq] at hok
      obtain ⟨h1, h2, h3⟩ := hok
      have hnref : nref = st.heap.length := by
        simpa using h2.symm
      rw [← h1, hnref]
      rw [addChild_get?_all, get?_append_length]
      by_cases hip : st.heap.length = p <;> simp [hip]
    | none =>
      cases hroot : opts.isRoot with
      | true =>
        rw [toNode_isRoot m st ent parents opts props hm hfind hroot] at hok
        rw [Except.ok.injEq, Prod.mk.injEq, Prod.mk.injEq] at hok
        obtain ⟨h1, h2, h3⟩ := hok
        have hnref : nref = st.heap.length := by
          simpa using h2.symm
        rw [← h1, hnref]
        rw [get?_append_length]
        simp [Note.make, DNode.make]
      | false =>
        cases hflag : opts.errorOnEmpty with
        | true =>
          rw [toNode_noParent_strict m st ent parents opts props hm hfind hroot hflag] at hok
          simp at hok
        | false =>
          rw [toNode_noParent_relaxed m st ent parents opts props hm hfind hroot hflag] at hok
          rw [Except.ok.injEq, Prod.mk.injEq, Prod.mk.injEq] at hok
          obtain ⟨h1, h2, h3⟩ := hok
          have hnref : nref = st.heap.length := by
            simpa using h2.symm
          rw [← h1, hnref]
          rw [get?_append_length]
          simp [Note.make, DNode.make]

theorem exceptBind_ok {ε α β : Type} {e : Except ε α} {f : α → Except ε β} {b : β}
    (h : e >>= f = Except.ok b) : ∃ a, e = Except.ok a ∧ f a = Except.ok b := by
  cases e with
  | error err => simp [Bind.bind, Except.bind] at h
  | ok a =>
    refine ⟨a, rfl, ?_⟩
    simpa [Bind.bind, Except.bind] using h

theorem parseSchemaFileAux_arr (fs : SchemaFS) (fuel : Nat) (fpath root : String)
    (entries : List SchemaRawOpts)
    (hfs : fs (root ++ "/" ++ fpath) = some (.arr entries)) :
    FileParserUtils.parseSchemaFileAux fs (fuel + 1) fpath root =
      .ok (entries.map (Schema.createRawProps (stemOf fpath))) := by
  unfold FileParserUtils.parseSchemaFileAux
  rw [hfs]

theorem parseSchemaFileAux_obj (fs : SchemaFS) (fuel : Nat) (fpath root : String)
    (imps : Option (List String)) (ss : Option (List SchemaRawOpts))
    (hfs : fs (root ++ "/" ++ fpath) = some (.obj imps ss)) :
    FileParserUtils.parseSchemaFileAux fs (fuel + 1) fpath root =
      FileParserUtils.parseSchemaVersion1 fs fuel imps ss (stemOf fpath) root := by
  unfold FileParserUtils.parseSchemaFileAux FileParserUtils.parseSchemaVersion1
  rw [hfs]

theorem parseSchemaFile_fname (fs : SchemaFS) (fuel : Nat) (fpath root : String)
    (out : List SchemaRawProps)
    (hok : FileParserUtils.parseSchemaFileAux fs fuel fpath root = .ok out) :
    ∀ r ∈ out, r.fname = stemOf fpath := by
  cases fuel with
  | zero => simp [FileParserUtils.parseSchemaFileAux] at hok
  | succ fuel =>
    unfold FileParserUtils.parseSchemaFileAux at hok
    cases hfs : fs (root ++ "/" ++ fpath) with
    | none => rw [hfs] at hok; simp at hok
    | some y =>
      rw [hfs] at hok
      cases y with
      | arr entries =>
        dsimp only at hok
        rw [Except.ok.injEq] at hok
        intro r hr
        rw [← hok] at hr
        obtain ⟨o, _, ho⟩ := List.mem_map.mp hr
        rw [← ho]
        rfl
      | obj imps ss =>
        dsimp only at hok
        obtain ⟨fi, hfi, hok2⟩ := exceptBind_ok hok
        cases ss with
        | none => simp at hok2
        | some schemas =>
          dsimp only at hok2
          rw [Except.ok.injEq] at hok2
          intro r hr
          rw [← hok2] at hr
          rcases List.mem_append.mp hr with hr1 | hr2
          · obtain ⟨o, _, ho⟩ := List.mem_map.mp hr1
            rw [← ho]
            rfl
          · obtain ⟨o, _, ho⟩ := List.mem_map.mp hr2
            rw [← ho]
            rfl

theorem sharedDot_append (s : String) : "shared" ++ "." ++ s = "shared." ++ s := by
  have h1 : ("shared" : String) ++ "." = "shared." := by decide
  rw [h1]

theorem parseSchemaVersion1_import (fs : SchemaFS) (fuel : Nat) (root : String)
    (schemas : List SchemaRawOpts) (sharedOut : List SchemaRawProps)
    (hshared : FileParserUtils.parseSchemaFileAux fs fuel "shared.schema.yml" root = .ok sharedOut) :
    FileParserUtils.parseSchemaVersion1 fs fuel (some ["shared"]) (some schemas) "domain" root =
      .ok (sharedOut.map (fun r =>
            { id := "shared." ++ r.id, fname := "domain",
              pattern := some (strOr r.pattern r.id), parent := none,
              children := r.children.map (fun c => "shared." ++ c) }) ++
          schemas.map (Schema.createRawProps "domain")) := by
  have hstr : ("shared" : String) ++ ".schema.yml" = "shared.schema.yml" := by decide
  have hmap : sharedOut.map (importRewrite "domain") = sharedOut.map (fun r =>
      ({ id := "shared." ++ r.id, fname := "domain",
         pattern := some (strOr r.pattern r.id), parent := none,
         children := r.children.map (fun c => "shared." ++ c) } : SchemaRawProps)) := by
    apply mapCongrMem
    intro r hr
    have hf : r.fname = stemOf "shared.schema.yml" :=
      parseSchemaFile_fname fs fuel "shared.schema.yml" root sharedOut hshared r hr
    have hf2 : r.fname = "shared.schema" := by
      rw [hf]
      decide
    have hdom : SchemaUtils.fname "shared.schema" = "shared" := by decide
    unfold importRewrite
    rw [hf2, hdom]
    simp only [sharedDot_append]
  unfold FileParserUtils.parseSchemaVersion1
  simp only [Option.getD, List.foldlM, hstr, hshared]
  simp only [Bind.bind, Except.bind, Pure.pure, Except.pure, List.nil_append]
  rw [hmap]

theorem parse_empty_input (m : Mdf) (popts : FPOpts) :
    FileParser.parse m popts [] = .ok (initFPState, []) := rfl

theorem parse_no_root_file (m : Mdf) (popts : FPOpts) (data : List String)
    (hne : data ≠ []) (hlvl : filesAtLevel data 1 ≠ [])
    (hfind : (filesAtLevel data 1).find? (fun n => n.fpath == "root.md") = none) :
    FileParser.parse m popts data = .ok (initFPState, []) := by
  have h1 : data.isEmpty = false := by
    cases data with
    | nil => exact absurd rfl hne
    | cons a l => rfl
  have h2 : (filesAtLevel data 1).isEmpty = false := by
    cases hl : filesAtLevel data 1 with
    | nil => exact absurd hl hlvl
    | cons a l => rfl
  unfold FileParser.parse
  rw [h1]
  simp only [Bool.false_eq_true, if_false]
  rw [h2]
  simp only [Bool.false_eq_true, if_false]
  rw [hfind]

theorem parse_no_level1_throws (m : Mdf) (popts : FPOpts) (data : List String)
    (hne : data ≠ []) (hlvl : filesAtLevel data 1 = []) :
    FileParser.parse m popts data = .error (.typeError "find of undefined") := by
  have h1 : data.isEmpty = false := by
    cases data with
    | nil => exact absurd rfl hne
    | cons a l => rfl
  have h2 : (filesAtLevel data 1).isEmpty = true := by
    rw [hlvl]
    rfl
  unfold FileParser.parse
  rw [h1]
  simp only [Bool.false_eq_true, if_false]
  rw [h2]
  simp only [if_true]

theorem processEnt_nodeOpt_src (m : Mdf) (popts : FPOpts) (prev : List Nat)
    (st st2 : FPState) (ent : FileMeta) (nodeOpt : Option Nat)
    (hok : FileParser.processEnt m popts prev st ent = .ok (st2, nodeOpt)) :
    nodeOpt = (if globMatchRootStar ent.fpath then none else
      match FileParser.toNode m st ent prev
        { errorOnEmpty := popts.errorOnEmpty, errorOnBadParse := popts.errorOnBadParse } with
      | .ok r => r.2.1
      | .error _ => none) := by
  unfold FileParser.processEnt at hok
  by_cases hg : globMatchRootStar ent.fpath
  · rw [if_pos hg] at hok
    rw [if_pos hg]
    simp at hok
    exact hok.2.symm
  · rw [if_neg hg] at hok
    rw [if_neg hg]
    cases htn : FileParser.toNode m st ent prev
        { errorOnEmpty := popts.errorOnEmpty, errorOnBadParse := popts.errorOnBadParse } with
    | error e => rw [htn] at hok; simp at hok
    | ok trip =>
      obtain ⟨st1, nodeOpt1, miss⟩ := trip
      rw [htn] at hok
      cases miss with
      | none =>
        simp at hok
        exact hok.2.symm
      | some mp =>
        cases nodeOpt1 with
        | none => simp at hok
        | some nref =>
          simp at hok
          exact hok.2.symm

theorem afterLevel_candidates (st : FPState) (acc : List (Option Nat)) :
    (FileParser.afterLevel st acc).2 = acc.filterMap id := rfl

/-! ## Claim theorems -/

/-- C1 counterexample: on the non-empty input `["a.b.md"]`, which has no
level-1 file at all (hence no level-1 file with stem `root`), `parse` does
not return an empty result — it throws a TypeError, because
`fileMetaDict[1]` is `undefined` when `.find` is called on it. -/
theorem c1_counterexample_no_level1_throws :
    parseError defaultMaterializer {} ["a.b.md"] =
      some (.typeError "find of undefined") := by decide

/-- C1 (amended): an empty input yields an empty result; a non-empty input
with at least one level-1 file but no file whose path is exactly `root.md`
yields an empty result without throwing; a non-empty input with no level-1
file at all makes `parse` throw a TypeError (the level-1 bucket is
`undefined`).  The root test is `fpath === "root.md"`, so neither stem-only
root files nor root-stem multiplicity is what is detected. -/
theorem c1_root_detection_amended :
    (∀ (m : Mdf) (popts : FPOpts), FileParser.parse m popts [] = .ok (initFPState, [])) ∧
    (∀ (m : Mdf) (popts : FPOpts) (data : List String), data ≠ [] →
      filesAtLevel data 1 ≠ [] →
      (filesAtLevel data 1).find? (fun n => n.fpath == "root.md") = none →
      FileParser.parse m popts data = .ok (initFPState, [])) ∧
    (∀ (m : Mdf) (popts : FPOpts) (data : List String), data ≠ [] →
      filesAtLevel data 1 = [] →
      FileParser.parse m popts data = .error (.typeError "find of undefined")) :=
  ⟨parse_empty_input, parse_no_root_file, parse_no_level1_throws⟩

/-- C1 witness: the three amended cases at concrete inputs. -/
theorem c1_amended_witness :
    FileParser.parse defaultMaterializer {} [] = .ok (initFPState, []) ∧
    FileParser.parse defaultMaterializer {} ["a.md", "b.md"] = .ok (initFPState, []) ∧
    FileParser.parse defaultMaterializer {} ["c.d.md", "e.f.md"] =
      .error (.typeError "find of undefined") :=
  ⟨c1_root_detection_amended.1 defaultMaterializer {},
   c1_root_detection_amended.2.1 defaultMaterializer {} ["a.md", "b.md"]
     (by decide) (by decide) (by decide),
   c1_root_detection_amended.2.2 defaultMaterializer {} ["c.d.md", "e.f.md"]
     (by decide) (by decide)⟩

/-- C2 counterexample: on `["root.md","a.md","a.b.c.md","a.b.d.md"]` with
`errorOnEmpty=false`, the stub for `"a.b"` is synthesized and indexed (its
key sits in the store before `a.b.c`/`a.b.d`, and its computed path is
`"a.b"`) while `a.b.d.md` is being processed at the same level — yet the
parent search still fails for `a.b.d.md` and records a second
`NO_PARENT_PATH` entry: stubs are never part of the candidate parent set,
contradicting the claim that they are searched alike. -/
theorem c2_counterexample_stub_not_searched :
    parseReport defaultMaterializer { errorOnEmpty := false }
        ["root.md", "a.md", "a.b.c.md", "a.b.d.md"] =
      some ([.noParentPath ⟨"a.b.c", "a.b.c.md"⟩ "a.b",
             .noParentPath ⟨"a.b.d", "a.b.d.md"⟩ "a.b"], ["a.b"]) ∧
    parsePathOfKey defaultMaterializer { errorOnEmpty := false }
        ["root.md", "a.md", "a.b.c.md", "a.b.d.md"] "a.b" = some "a.b" ∧
    parseDictKeys defaultMaterializer { errorOnEmpty := false }
        ["root.md", "a.md", "a.b.c.md", "a.b.d.md"] =
      some ["root", "a", "a.b", "a.b.c", "a.b.d"] :=
  ⟨by decide, by decide, by decide⟩

/-- C2 (amended): the parent of a materialized file is exactly the first
candidate whose computed path equals the file's dirName — searched over the
`parents` list only; the node a level contributes per file is the one
`toNode` returned (`null` for skipped `root.*` files); and the candidate
set handed to the next level is exactly the non-null `toNode` results of
this level.  Stub nodes enter only the by-fname store, never the candidate
parent set. -/
theorem c2_parent_search_amended :
    (∀ (m : Mdf) (st : FPState) (ent : FileMeta) (parents : List Nat) (opts : ToNodeOpts)
        (st2 : FPState) (nref : Nat) (miss : Option String),
      FileParser.toNode m st ent parents opts = .ok (st2, some nref, miss) →
      (st2.heap.get? nref).map NoteData.parent =
        some (parents.find? (fun q => notePath st.heap q == dirName ent.stem))) ∧
    (∀ (m : Mdf) (popts : FPOpts) (prev : List Nat) (st st2 : FPState) (ent : FileMeta)
        (nodeOpt : Option Nat),
      FileParser.processEnt m popts prev st ent = .ok (st2, nodeOpt) →
      nodeOpt = (if globMatchRootStar ent.fpath then none else
        match FileParser.toNode m st ent prev
          { errorOnEmpty := popts.errorOnEmpty, errorOnBadParse := popts.errorOnBadParse } with
        | .ok r => r.2.1
        | .error _ => none)) ∧
    (∀ (st : FPState) (acc : List (Option Nat)),
      (FileParser.afterLevel st acc).2 = acc.filterMap id) :=
  ⟨toNode_parent_eq_find, processEnt_nodeOpt_src, afterLevel_candidates⟩

/-- C2 witness: the three amended statements at concrete inputs. -/
theorem c2_amended_witness :
    ((demoSt2.heap.get? 2).map NoteData.parent =
      some (([1] : List Nat).find? (fun q => notePath demoSt.heap q == dirName entAB.stem))) ∧
    (demoPEfull.2 = (if globMatchRootStar entAB.fpath then none else
      match FileParser.toNode defaultMaterializer demoSt entAB [1]
        { errorOnEmpty := ({} : FPOpts).errorOnEmpty,
          errorOnBadParse := ({} : FPOpts).errorOnBadParse } with
      | .ok r => r.2.1
      | .error _ => none)) ∧
    ((FileParser.afterLevel initFPState [some 0, none, some 1]).2 = [0, 1]) :=
  ⟨c2_parent_search_amended.1 defaultMaterializer demoSt entAB [1] {} demoSt2 2 none rfl,
   c2_parent_search_amended.2.1 defaultMaterializer {} [1] demoSt demoPEfull.1 entAB
     demoPEfull.2 rfl,
   c2_parent_search_amended.2.2 initFPState [some 0, none, some 1]⟩

/-- C3 counterexample: with `errorOnBadParse=false` and a materializer that
fails on the level-1 file `a.md`, `parse` still throws the collaborator's
error: the flag is not forwarded to the `toNode` call for level-1 domain
files, so `toNode` runs with its fail-closed default there — contradicting
"for every input file at every level ... parse does not throw". -/
theorem c3_counterexample_level1_throws :
    parseError mFailA { errorOnEmpty := true, errorOnBadParse := false }
        ["root.md", "a.md"] = some (.thrown "boom") := by decide

/-- C3 (amended): with `errorOnBadParse=false`, a failing materialization
makes `toNode` record a `{status: "BAD_PARSE", ent, err}` entry and return
a null node instead of throwing, and with the flag true it rethrows; this
governs the files of levels ≥ 2, to which `parse` forwards the flag —
a failing level-2 file is recorded and skipped while the remaining files
are processed — but level-1 files are materialized with the defaults, so
a level-1 bad parse throws regardless of the configuration. -/
theorem c3_bad_parse_amended :
    (∀ (m : Mdf) (st : FPState) (ent : FileMeta) (parents : List Nat)
        (opts : ToNodeOpts) (e : String),
      m ent.fpath = .error e → opts.errorOnBadParse = false →
      FileParser.toNode m st ent parents opts =
        .ok ({ st with errors := st.errors ++ [.badParse ent e] }, none, none)) ∧
    (∀ (m : Mdf) (st : FPState) (ent : FileMeta) (parents : List Nat)
        (opts : ToNodeOpts) (e : String),
      m ent.fpath = .error e → opts.errorOnBadParse = true →
      FileParser.toNode m st ent parents opts = .error (.thrown e)) ∧
    (∀ (ent : FileMeta) (e : String), (ErrorEntry.badParse ent e).status = "BAD_PARSE") ∧
    (parseReport mFailAB { errorOnEmpty := true, errorOnBadParse := false }
        ["root.md", "a.md", "a.b.md", "a.c.md"] =
      some ([.badParse ⟨"a.b", "a.b.md"⟩ "boom"], [])) ∧
    (parseDictKeys mFailAB { errorOnEmpty := true, errorOnBadParse := false }
        ["root.md", "a.md", "a.b.md", "a.c.md"] = some ["root", "a", "a.c"]) :=
  ⟨fun m st ent parents opts e hm hflag => toNode_badParse_relaxed m st ent parents opts e hm hflag,
   fun m st ent parents opts e hm hflag => toNode_badParse_strict m st ent parents opts e hm hflag,
   fun _ _ => rfl, by decide, by decide⟩

/-- C3 witness: both `toNode` behaviours at a concrete failing file. -/
theorem c3_amended_witness :
    FileParser.toNode mFailA initFPState (toFileMeta "a.md") [] { errorOnBadParse := false } =
      .ok ({ initFPState with
               errors := initFPState.errors ++ [.badParse (toFileMeta "a.md") "boom"] },
           none, none) ∧
    FileParser.toNode mFailA initFPState (toFileMeta "a.md") [] {} = .error (.thrown "boom") :=
  ⟨c3_bad_parse_amended.1 mFailA initFPState (toFileMeta "a.md") []
     { errorOnBadParse := false } "boom" rfl rfl,
   c3_bad_parse_amended.2.1 mFailA initFPState (toFileMeta "a.md") [] {} "boom"
     rfl rfl⟩

/-- C4: when a file's expected parent path is missing from the candidate
set, `toNode` with `errorOnEmpty=true` (the constructor default) throws an
error built from the `NO_PARENT_PATH` entry, and with `errorOnEmpty=false`
it records the entry, returns the orphan and reports the missing path;
at the `parse` level the default configuration therefore throws on
`["root.md","a.md","a.b.c.md"]` while `errorOnEmpty=false` completes,
adds `"a.b"` to the missing set and repairs the tree with a stub. -/
theorem c4_error_on_empty :
    (∀ (m : Mdf) (st : FPState) (ent : FileMeta) (parents : List Nat)
        (opts : ToNodeOpts) (props : IDNodeOpts),
      m ent.fpath = .ok props →
      parents.find? (fun p => notePath st.heap p == dirName ent.stem) = none →
      opts.isRoot = false → opts.errorOnEmpty = true →
      FileParser.toNode m st ent parents opts =
        .error (.errorObj (.noParentPath ent (dirName ent.stem)))) ∧
    (∀ (m : Mdf) (st : FPState) (ent : FileMeta) (parents : List Nat)
        (opts : ToNodeOpts) (props : IDNodeOpts),
      m ent.fpath = .ok props →
      parents.find? (fun p => notePath st.heap p == dirName ent.stem) = none →
      opts.isRoot = false → opts.errorOnEmpty = false →
      FileParser.toNode m st ent parents opts =
        .ok ({ st with errors := st.errors ++ [.noParentPath ent (dirName ent.stem)],
                       heap := st.heap ++ [Note.make { props with parent := none, children := some [] }] },
             some st.heap.length, some (dirName ent.stem))) ∧
    (∀ (ent : FileMeta) (pp : String),
      (ErrorEntry.noParentPath ent pp).status = "NO_PARENT_PATH") ∧
    (parseError defaultMaterializer {} ["root.md", "a.md", "a.b.c.md"] =
      some (.errorObj (.noParentPath ⟨"a.b.c", "a.b.c.md"⟩ "a.b"))) ∧
    (parseReport defaultMaterializer { errorOnEmpty := false } ["root.md", "a.md", "a.b.c.md"] =
      some ([.noParentPath ⟨"a.b.c", "a.b.c.md"⟩ "a.b"], ["a.b"])) ∧
    (parseDictKeys defaultMaterializer { errorOnEmpty := false } ["root.md", "a.md", "a.b.c.md"] =
      some ["root", "a", "a.b", "a.b.c"]) :=
  ⟨toNode_noParent_strict, toNode_noParent_relaxed, fun _ _ => rfl,
   by decide, by decide, by decide⟩

/-- C4 witness: both `toNode` behaviours at a concrete orphan file. -/
theorem c4_witness :
    FileParser.toNode defaultMaterializer demoSt (toFileMeta "a.x.y.md") [1] {} =
      .error (.errorObj (.noParentPath (toFileMeta "a.x.y.md") (dirName (toFileMeta "a.x.y.md").stem))) ∧
    FileParser.toNode defaultMaterializer demoSt (toFileMeta "a.x.y.md") [1] { errorOnEmpty := false } =
      .ok ({ demoSt with
               errors := demoSt.errors ++ [.noParentPath (toFileMeta "a.x.y.md") (dirName (toFileMeta "a.x.y.md").stem)],
               heap := demoSt.heap ++ [Note.make { demoC4props with parent := none, children := some [] }] },
           some demoSt.heap.length, some (dirName (toFileMeta "a.x.y.md").stem)) :=
  ⟨c4_error_on_empty.1 defaultMaterializer demoSt (toFileMeta "a.x.y.md") [1] {}
     demoC4props rfl (by decide) rfl rfl,
   c4_error_on_empty.2.1 defaultMaterializer demoSt (toFileMeta "a.x.y.md") [1]
     { errorOnEmpty := false } demoC4props rfl (by decide) rfl rfl⟩

/-- C5: for every node whose parent chain terminates (at a parentless node
or below a node titled `"root"`) within the available fuel, the recursive
`path` getter yields exactly the dot-join of the titles from the synthetic
root (exclusive) down to the node; `path` is a function of the current
heap, recomputed from the live tree on every evaluation, with nothing
cached. -/
theorem c5_path_derivation :
    (∀ (h : List NoteData) (fuel r : Nat) (L : List String),
      titleChain h fuel r = some L → pathAux h fuel r = dotJoin L) ∧
    (∀ (h : List NoteData) (r : Nat) (L : List String),
      titleChain h h.length r = some L → notePath h r = dotJoin L) :=
  ⟨fun h => pathAux_eq_dotJoin h,
   fun h r L hc => pathAux_eq_dotJoin h h.length r L hc⟩

/-- C5 witness: in the `addChild`-built chain root → a → a.b, the path of
`a.b` is the dot-join `"a.b"` of the titles below the root. -/
theorem c5_witness : notePath chainHeap 2 = dotJoin ["a", "b"] :=
  c5_path_derivation.2 chainHeap 2 ["a", "b"] (by decide)

/-- C6: resolving a version-1 schema with fname `domain` and imports
`["shared"]` rewrites every record resolved from `shared.schema.yml`
before concatenating it with the importer's own entries: the id becomes
`"shared." ++ id`, the fname becomes `"domain"`, the pattern is defaulted
to the pre-namespaced id when absent, the parent is nulled, and every
child id is prefixed with `"shared."`. -/
theorem c6_import_namespacing :
    ∀ (fs : SchemaFS) (fuel : Nat) (root : String) (schemas : List SchemaRawOpts)
      (sharedOut : List SchemaRawProps),
      FileParserUtils.parseSchemaFileAux fs fuel "shared.schema.yml" root = .ok sharedOut →
      FileParserUtils.parseSchemaVersion1 fs fuel (some ["shared"]) (some schemas) "domain" root =
        .ok (sharedOut.map (fun r =>
              { id := "shared." ++ r.id, fname := "domain",
                pattern := some (strOr r.pattern r.id), parent := none,
                children := r.children.map (fun c => "shared." ++ c) }) ++
            schemas.map (Schema.createRawProps "domain")) :=
  parseSchemaVersion1_import

/-- C6 witness: the namespacing rewrite on a concrete store in which
`shared.schema.yml` defines ids `x` (no pattern) and `y` (pattern `pat`,
child `x`). -/
theorem c6_witness :
    FileParserUtils.parseSchemaVersion1 demoFS 1 (some ["shared"]) (some [{ id := "own" }])
        "domain" "r" =
      .ok (([{ id := "x", fname := "shared.schema", pattern := none, parent := none,
               children := [] },
             { id := "y", fname := "shared.schema", pattern := some "pat", parent := none,
               children := ["x"] }] : List SchemaRawProps).map (fun r =>
              { id := "shared." ++ r.id, fname := "domain",
                pattern := some (strOr r.pattern r.id), parent := none,
                children := r.children.map (fun c => "shared." ++ c) }) ++
          [{ id := "own" }].map (Schema.createRawProps "domain")) :=
  c6_import_namespacing demoFS 1 "r" [{ id := "own" }]
    [{ id := "x", fname := "shared.schema", pattern := none, parent := none, children := [] },
     { id := "y", fname := "shared.schema", pattern := some "pat", parent := none,
       children := ["x"] }] rfl

/-- C7: `parseSchemaFile` detects the format version purely by the shape of
the parsed YAML value — an array is treated as version 0 with each entry
normalized under the file's fname, and an object carrying `imports` and
`schemas` keys is treated as version 1 and handed to the recursive
import-resolving path. -/
theorem c7_schema_version_detection :
    (∀ (fs : SchemaFS) (fuel : Nat) (fpath root : String) (entries : List SchemaRawOpts),
      fs (root ++ "/" ++ fpath) = some (.arr entries) →
      FileParserUtils.parseSchemaFileAux fs (fuel + 1) fpath root =
        .ok (entries.map (Schema.createRawProps (stemOf fpath)))) ∧
    (∀ (fs : SchemaFS) (fuel : Nat) (fpath root : String) (imps : Option (List String))
        (ss : Option (List SchemaRawOpts)),
      fs (root ++ "/" ++ fpath) = some (.obj imps ss) →
      FileParserUtils.parseSchemaFileAux fs (fuel + 1) fpath root =
        FileParserUtils.parseSchemaVersion1 fs fuel imps ss (stemOf fpath) root) :=
  ⟨parseSchemaFileAux_arr, parseSchemaFileAux_obj⟩

/-- C7 witness: both shape detections on the concrete demo store. -/
theorem c7_witness :
    FileParserUtils.parseSchemaFileAux demoFS 2 "shared.schema.yml" "r" =
      .ok ([{ id := "x" }, { id := "y", pattern := some "pat", children := some ["x"] }].map
            (Schema.createRawProps (stemOf "shared.schema.yml"))) ∧
    FileParserUtils.parseSchemaFileAux demoFS 2 "domain.schema.yml" "r" =
      FileParserUtils.parseSchemaVersion1 demoFS 1 (some ["shared"]) (some [{ id := "own" }])
        (stemOf "domain.schema.yml") "r" :=
  ⟨c7_schema_version_detection.1 demoFS 1 "shared.schema.yml" "r"
     [{ id := "x" }, { id := "y", pattern := some "pat", children := some ["x"] }] (by decide),
   c7_schema_version_detection.2 demoFS 1 "domain.schema.yml" "r" (some ["shared"])
     (some [{ id := "own" }]) (by decide)⟩

/-- The two-node demo heap satisfies the parent/children invariant: both of
its nodes are detached. -/
theorem demoHeapInv : parentChildInv demoHeap := by
  intro c p cn pn hc hpar hp
  match c, hc with
  | 0, hc =>
    have hc2 : some demoRootNote = some cn := hc
    injection hc2 with h
    rw [← h] at hpar
    have hnone : (none : Option Nat) = some p := hpar
    exact Option.noConfusion hnone
  | 1, hc =>
    have hc2 : some demoANote = some cn := hc
    injection hc2 with h
    rw [← h] at hpar
    have hnone : (none : Option Nat) = some p := hpar
    exact Option.noConfusion hnone
  | Nat.succ (Nat.succ n), hc =>
    have hnone : (none : Option NoteData) = some cn := hc
    exact Option.noConfusion hnone

/-- C8: `addChild` appends the child to the target's children list and
redirects the child's parent reference to the target — and, provided the
child is not already among the target's children, it preserves the
invariant that a node referenced as parent holds the referring node in its
children list exactly once. -/
theorem c8_addChild_contract :
    (∀ (h : List NoteData) (p c : Nat) (pn : NoteData), h.get? p = some pn → p ≠ c →
      (addChild h p c).get? p = some { pn with children := pn.children ++ [c] }) ∧
    (∀ (h : List NoteData) (p c : Nat) (cn : NoteData), h.get? c = some cn → c ≠ p →
      (addChild h p c).get? c = some { cn with parent := some p }) ∧
    (∀ (h : List NoteData) (p c : Nat) (pn : NoteData), h.get? p = some pn →
      c ∉ pn.children → parentChildInv h → parentChildInv (addChild h p c)) := by
  refine ⟨?_, ?_, ?_⟩
  · intro h p c pn hp hne
    rw [addChild_get?_parent h p c hne, hp]
    rfl
  · intro h p c cn hc hne
    rw [addChild_get?_child h p c hne, hc]
    rfl
  · intro h p c pn hp hni hinv
    exact addChild_preserves_inv h p c pn hp hni hinv

/-- C8 witness: attaching the detached demo note under the demo root. -/
theorem c8_witness :
    (addChild demoHeap 0 1).get? 0 =
      some { demoRootNote with children := demoRootNote.children ++ [1] } ∧
    (addChild demoHeap 0 1).get? 1 = some { demoANote with parent := some 0 } ∧
    parentChildInv (addChild demoHeap 0 1) :=
  ⟨c8_addChild_contract.1 demoHeap 0 1 demoRootNote rfl (by decide),
   c8_addChild_contract.2.1 demoHeap 0 1 demoANote rfl (by decide),
   c8_addChild_contract.2.2 demoHeap 0 1 demoRootNote rfl (by decide) demoHeapInv⟩

/-- C9: `toRawProps` is a plain record of exactly the nine
scalar/identifier fields — it is invariant under the node's
`parent`/`children` references — and flattening, reconstructing a `Note`
from the record, and re-flattening reproduces the record exactly. -/
theorem c9_toRawProps_roundtrip :
    (∀ n : NoteData, DNode.toRawProps (noteOfRawProps (DNode.toRawProps n)) = DNode.toRawProps n) ∧
    (∀ (n : NoteData) (p : Option Nat) (c : List Nat),
      DNode.toRawProps { n with parent := p, children := c } = DNode.toRawProps n) :=
  ⟨fun _ => rfl, fun _ _ _ => rfl⟩

/-- C10: the `Note` constructor always produces a detached node — parent
`null` and empty children, whatever the options supplied — while keeping
the `parentId`/`childrenIds` identifier mirrors from the options; linking
happens only through a later `addChild`. -/
theorem c10_note_detached :
    ∀ opts : IDNodeOpts,
      (Note.make opts).parent = none ∧ (Note.make opts).children = [] ∧
      (Note.make opts).parentId = opts.parentId ∧
      (Note.make opts).childrenIds = opts.childrenIds.getD [] :=
  fun _ => ⟨rfl, rfl, rfl, rfl⟩
